import Mathlib

/-!
Verification development for the citation deduplication core of the
`boun-mis-citations` repository (`new-parser.py`).

The Python source is shallowly embedded: citation texts are `List Char`,
Python `re` substitutions and searches are modelled by explicit scanning
functions that reproduce the leftmost-match, greedy/lazy semantics of the
concrete patterns appearing in the source, Python floats are modelled as
exact rationals (`ℚ`), and `difflib.SequenceMatcher` is embedded by its
actual algorithm (the `j2len` dynamic program of `find_longest_match` with
its strict-improvement tie-breaking, plus the recursive block decomposition
of `get_matching_blocks`).  The `autojunk` heuristic of `SequenceMatcher`
only activates for second sequences of length at least 200; every string
evaluated concretely in this development is far shorter, so the junk set is
modelled as empty (which also makes the two junk-extension loops of
`find_longest_match` no-ops, exactly as in the source for such inputs).
Character classes are modelled on their ASCII fragment, which covers every
character the analysed inputs contain.
-/

/-- Python `\s` on the inputs in scope: ASCII whitespace. -/
def pyIsSpace (c : Char) : Bool :=
  c == ' ' || c == '\t' || c == '\n' || c == '\r' || c == '\x0b' || c == '\x0c'

/-- Python `\w`: letters, digits and underscore (ASCII fragment). -/
def isWordChar (c : Char) : Bool :=
  c.isAlphanum || c == '_'

/-- Characters removed by the second substitution of `_normalize_text`
(the class `[.,;:!?"]`). -/
def isRemovedPunct (c : Char) : Bool :=
  c == '.' || c == ',' || c == ';' || c == ':' || c == '!' || c == '?' || c == '"'

/-- Replace every maximal run of characters satisfying `p` by the single
character `r`; this is `re.sub` of a `[...]+` class with a one-character
replacement.  The Boolean flag records whether the previous character was
inside a run. -/
def collapseRunAux (p : Char → Bool) (r : Char) : Bool → List Char → List Char
  | _, [] => []
  | inRun, c :: tl =>
    if p c then
      if inRun then collapseRunAux p r true tl
      else r :: collapseRunAux p r true tl
    else c :: collapseRunAux p r false tl

/-- Entry point of `collapseRunAux` (not yet inside a run). -/
def collapseRun (p : Char → Bool) (r : Char) (l : List Char) : List Char :=
  collapseRunAux p r false l

/-- Python `str.strip()`: drop whitespace from both ends. -/
def pyStrip (l : List Char) : List Char :=
  ((l.dropWhile pyIsSpace).reverse.dropWhile pyIsSpace).reverse

/-- One pass of `re.sub(pattern, '', text)` for a pattern that never matches
the empty string: `m l` returns the length of the (greedy) match of the
pattern at the head of `l`, if any.  Scans left to right, deleting each
leftmost match and continuing after it.  `fuel` bounds the recursion; every
step consumes at least one input character, so `fuel = l.length` is exact. -/
def scrubFuel (m : List Char → Option Nat) : Nat → List Char → List Char
  | _, [] => []
  | 0, l => l
  | fuel + 1, c :: tl =>
    match m (c :: tl) with
    | some n =>
      if n = 0 then c :: scrubFuel m fuel tl
      else scrubFuel m fuel (List.drop (n - 1) tl)
    | none => c :: scrubFuel m fuel tl

/-- Delete every occurrence of the pattern recognised by `m`. -/
def scrub (m : List Char → Option Nat) (l : List Char) : List Char :=
  scrubFuel m l.length l

/-- Matcher for `doi:\s*` at the current position (the prefix-stripping
substitution of `_normalize_text`; the text is already lower-cased there). -/
def mDoiColon : List Char → Option Nat
  | 'd' :: 'o' :: 'i' :: ':' :: rest => some (4 + (rest.takeWhile pyIsSpace).length)
  | _ => none

/-- Matcher for `https?://[^\s]+` at the current position. -/
def mUrl : List Char → Option Nat
  | 'h' :: 't' :: 't' :: 'p' :: rest =>
    match rest with
    | 's' :: ':' :: '/' :: '/' :: r2 =>
      let t := r2.takeWhile (fun c => !pyIsSpace c)
      if t.length = 0 then none else some (8 + t.length)
    | ':' :: '/' :: '/' :: r2 =>
      let t := r2.takeWhile (fun c => !pyIsSpace c)
      if t.length = 0 then none else some (7 + t.length)
    | _ => none
  | _ => none

/-- Matcher for `\([^)]*\)` at the current position: an opening parenthesis
matched with the next closing one. -/
def mParen : List Char → Option Nat
  | '(' :: rest =>
    let inner := rest.takeWhile (fun c => c != ')')
    if inner.length < rest.length then some (inner.length + 2) else none
  | _ => none

/-- Matcher for `vol\.\s*\d+` at the current position. -/
def mVol : List Char → Option Nat
  | 'v' :: 'o' :: 'l' :: '.' :: rest =>
    let sp := rest.takeWhile pyIsSpace
    let ds := (rest.drop sp.length).takeWhile Char.isDigit
    if ds.length = 0 then none else some (4 + sp.length + ds.length)
  | _ => none

/-- Matcher for `\.\s*\d+[-–]\d+` (the tail of the page-range pattern). -/
def mPagesCore : List Char → Option Nat
  | '.' :: rest =>
    let sp := rest.takeWhile pyIsSpace
    let r1 := rest.drop sp.length
    let d1 := r1.takeWhile Char.isDigit
    if d1.length = 0 then none
    else
      match r1.drop d1.length with
      | c :: r2 =>
        if c == '-' || c == '–' then
          let d2 := r2.takeWhile Char.isDigit
          if d2.length = 0 then none
          else some (1 + sp.length + d1.length + 1 + d2.length)
        else none
      | [] => none
  | _ => none

/-- Matcher for `pp?\.\s*\d+[-–]\d+` at the current position. -/
def mPages : List Char → Option Nat
  | 'p' :: 'p' :: rest =>
    match mPagesCore rest with
    | some n => some (2 + n)
    | none => none
  | 'p' :: rest =>
    match mPagesCore rest with
    | some n => some (1 + n)
    | none => none
  | _ => none

/-- Embedding of `Citation._normalize_text`: lower-case, collapse runs of
ampersands and whitespace, drop the punctuation class, collapse whitespace
again, then delete DOI prefixes, URLs, parenthetical spans, volume tokens
and page ranges, and strip. -/
def normalizeText (text : List Char) : List Char :=
  let t0 := text.map Char.toLower
  let t1 := collapseRun (fun c => c == '&' || pyIsSpace c) ' ' t0
  let t2 := t1.filter (fun c => !isRemovedPunct c)
  let t3 := collapseRun pyIsSpace ' ' t2
  let t4 := scrub mDoiColon t3
  let t5 := scrub mUrl t4
  let t6 := scrub mParen t5
  let t7 := scrub mVol t6
  let t8 := scrub mPages t7
  pyStrip t8

/-- Numeric value of a digit string. -/
def yearFrom (ds : List Char) : Int :=
  (ds.foldl (fun a c => a * 10 + (c.toNat - 48)) 0 : Nat)

/-- Match `\((\d{4})\)` at the current position, returning the digits. -/
def parenYearHere : List Char → Option (List Char)
  | '(' :: d1 :: d2 :: d3 :: d4 :: ')' :: _ =>
    if d1.isDigit && d2.isDigit && d3.isDigit && d4.isDigit then
      some [d1, d2, d3, d4]
    else none
  | _ => none

/-- Leftmost `re.search` of `\((\d{4})\)`. -/
def searchParenYear : List Char → Option Int
  | [] => none
  | c :: tl =>
    match parenYearHere (c :: tl) with
    | some ds => some (yearFrom ds)
    | none => searchParenYear tl

/-- Match `\b(\d{4})\b` at the current position given whether the previous
character was a word character; returns the digits and the rest. -/
def fourDigitHere (prevW : Bool) : List Char → Option (List Char × List Char)
  | d1 :: d2 :: d3 :: d4 :: rest =>
    if !prevW && d1.isDigit && d2.isDigit && d3.isDigit && d4.isDigit &&
        (match rest with | [] => true | r :: _ => !isWordChar r) then
      some ([d1, d2, d3, d4], rest)
    else none
  | _ => none

/-- All matches of `re.findall(r'\b(\d{4})\b', ...)`, left to right and
non-overlapping.  `fuel` bounds the recursion (each step consumes at least
one character, so the initial `l.length` suffices). -/
def fourDigitRunsAux (fuel : Nat) (prevW : Bool) (l : List Char) : List (List Char) :=
  match fuel, l with
  | _, [] => []
  | 0, _ => []
  | f + 1, c :: tl =>
    match fourDigitHere prevW (c :: tl) with
    | some (ds, rest) => ds :: fourDigitRunsAux f true rest
    | none => fourDigitRunsAux f (isWordChar c) tl

/-- All bare four-digit runs of a text, in order. -/
def fourDigitRuns (l : List Char) : List (List Char) :=
  fourDigitRunsAux l.length false l

/-- First year in the valid range among a list of digit runs. -/
def firstYearInRange (ds : List (List Char)) : Option Int :=
  (ds.map yearFrom).find? (fun y => decide (1950 ≤ y) && decide (y ≤ 2030))

/-- Embedding of `Citation._extract_year`: the first `(YYYY)` match if in
range, else the first bare four-digit run in range, else absent. -/
def extractYear (text : List Char) : Option Int :=
  match searchParenYear text with
  | some y =>
    if 1950 ≤ y ∧ y ≤ 2030 then some y
    else firstYearInRange (fourDigitRuns text)
  | none => firstYearInRange (fourDigitRuns text)

/-- Characters allowed in the run before the slash of a DOI (`[0-9.]`). -/
def isDoiBodyChar (c : Char) : Bool :=
  c.isDigit || c == '.'

/-- Characters allowed after the slash of a DOI (`[^\s,)]`). -/
def isDoiTailChar (c : Char) : Bool :=
  !pyIsSpace c && c != ',' && c != ')'

/-- Match the common DOI group `([0-9.]+/[^\s,)]+)` at the current
position (both runs greedy; the classes are disjoint from the characters
that follow them, so greediness is deterministic). -/
def doiGroupAt (l : List Char) : Option (List Char) :=
  let run := l.takeWhile isDoiBodyChar
  if run.length = 0 then none
  else
    match l.drop run.length with
    | '/' :: r2 =>
      let t := r2.takeWhile isDoiTailChar
      if t.length = 0 then none else some (run ++ '/' :: t)
    | _ => none

/-- Case-insensitive literal match; returns the rest of the input. -/
def litCI : List Char → List Char → Option (List Char)
  | [], l => some l
  | _ :: _, [] => none
  | p :: ps, c :: tl => if c.toLower == p then litCI ps tl else none

/-- Match `doi:\s*([0-9.]+/[^\s,)]+)` (IGNORECASE) at the current position. -/
def p1At (l : List Char) : Option (List Char) :=
  match l with
  | a :: b :: c :: d :: rest =>
    if a.toLower == 'd' && b.toLower == 'o' && c.toLower == 'i' && d == ':' then
      doiGroupAt (rest.dropWhile pyIsSpace)
    else none
  | _ => none

/-- Match `https?://doi\.org/(...)` (IGNORECASE) at the current position. -/
def p2At (l : List Char) : Option (List Char) :=
  match litCI ['h', 't', 't', 'p'] l with
  | none => none
  | some r =>
    match r with
    | c :: r2 =>
      if c.toLower == 's' then
        match litCI [':', '/', '/', 'd', 'o', 'i', '.', 'o', 'r', 'g', '/'] r2 with
        | some r3 => doiGroupAt r3
        | none => none
      else
        match litCI [':', '/', '/', 'd', 'o', 'i', '.', 'o', 'r', 'g', '/'] (c :: r2) with
        | some r3 => doiGroupAt r3
        | none => none
    | [] => none

/-- Match `https?://dx\.doi\.org/(...)` (IGNORECASE) at the current position. -/
def p3At (l : List Char) : Option (List Char) :=
  match litCI ['h', 't', 't', 'p'] l with
  | none => none
  | some r =>
    match r with
    | c :: r2 =>
      if c.toLower == 's' then
        match litCI [':', '/', '/', 'd', 'x', '.', 'd', 'o', 'i', '.', 'o', 'r', 'g', '/'] r2 with
        | some r3 => doiGroupAt r3
        | none => none
      else
        match litCI [':', '/', '/', 'd', 'x', '.', 'd', 'o', 'i', '.', 'o', 'r', 'g', '/'] (c :: r2) with
        | some r3 => doiGroupAt r3
        | none => none
    | [] => none

/-- Match `\b(10\.[0-9]+/[^\s,)]+)` at the current position, given whether
the previous character is a word character (for the `\b`). -/
def p4At (prevW : Bool) : List Char → Option (List Char)
  | '1' :: '0' :: '.' :: rest =>
    if prevW then none
    else
      let ds := rest.takeWhile Char.isDigit
      if ds.length = 0 then none
      else
        match rest.drop ds.length with
        | '/' :: r2 =>
          let t := r2.takeWhile isDoiTailChar
          if t.length = 0 then none
          else some ('1' :: '0' :: '.' :: (ds ++ '/' :: t))
        | _ => none
  | _ => none

/-- Leftmost `re.search` of a position matcher. -/
def searchP (f : List Char → Option (List Char)) : List Char → Option (List Char)
  | [] => none
  | c :: tl =>
    match f (c :: tl) with
    | some g => some g
    | none => searchP f tl

/-- Leftmost search for the fourth DOI pattern, tracking word boundaries. -/
def searchP4 : Bool → List Char → Option (List Char)
  | _, [] => none
  | prevW, c :: tl =>
    match p4At prevW (c :: tl) with
    | some g => some g
    | none => searchP4 (isWordChar c) tl

/-- Python `str.rstrip('.,;)')`. -/
def rstripSet (s : List Char) : List Char :=
  (s.reverse.dropWhile (fun c => c == '.' || c == ',' || c == ';' || c == ')')).reverse

/-- Embedding of `Citation._extract_doi`: the four patterns are tried in
order over the whole text; a found group is right-stripped of `.,;)` and
lower-cased. -/
def extractDoi (text : List Char) : Option (List Char) :=
  match searchP p1At text with
  | some g => some ((rstripSet g).map Char.toLower)
  | none =>
    match searchP p2At text with
    | some g => some ((rstripSet g).map Char.toLower)
    | none =>
      match searchP p3At text with
      | some g => some ((rstripSet g).map Char.toLower)
      | none =>
        match searchP4 false text with
        | some g => some ((rstripSet g).map Char.toLower)
        | none => none

/-- Match `"([^"]+)"` at the current position. -/
def quotedAt : List Char → Option (List Char)
  | '"' :: rest =>
    let inner := rest.takeWhile (fun c => c != '"')
    if inner.length = 0 then none
    else if inner.length < rest.length then some inner
    else none
  | _ => none

/-- Case-sensitive literal test at the current position. -/
def litAt (pat : List Char) (l : List Char) : Bool :=
  pat.isPrefixOf l

/-- Match the first heuristic title pattern
`(?:\.|\))\s+([^.]+?)\.\s+[A-Z][^.]+(?:Journal|Conference|Proceedings)`
at the current position, returning the captured group.  The enumerations
reproduce the regex backtracking order: the leading `\s+` is greedy
(longest first), the lazy group grows shortest first (it contains no dot,
so it can only stop at the first following dot), the `\s+` after the dot
is deterministic because `[A-Z]` is not whitespace, and the final `[^.]+`
is greedy (longest first) before the literal alternatives. -/
def heur1At (l : List Char) : Option (List Char) :=
  match l with
  | c :: rest =>
    if c == '.' || c == ')' then
      let spMax := (rest.takeWhile pyIsSpace).length
      (List.range spMax).findSome? (fun i =>
        let k := spMax - i
        let r1 := rest.drop k
        let tMax := (r1.takeWhile (fun ch => ch != '.')).length
        (List.range tMax).findSome? (fun j =>
          let m := j + 1
          match r1.drop m with
          | '.' :: r2 =>
            let sp2 := (r2.takeWhile pyIsSpace).length
            if sp2 = 0 then none
            else
              match r2.drop sp2 with
              | u :: r3 =>
                if u.isUpper then
                  (List.range ((r3.takeWhile (fun ch => ch != '.')).length)).findSome?
                    (fun x =>
                      let n := (r3.takeWhile (fun ch => ch != '.')).length - x
                      if n = 0 then none
                      else
                        let r4 := r3.drop n
                        if litAt ['J', 'o', 'u', 'r', 'n', 'a', 'l'] r4 ||
                            litAt ['C', 'o', 'n', 'f', 'e', 'r', 'e', 'n', 'c', 'e'] r4 ||
                            litAt ['P', 'r', 'o', 'c', 'e', 'e', 'd', 'i', 'n', 'g', 's'] r4 then
                          some (r1.take m)
                        else none)
                else none
              | [] => none
          | _ => none))
    else none
  | [] => none

/-- Match the second heuristic title pattern
`(?:\.|\))\s+([^.]+?)\s+\(\d{4}\)` at the current position. -/
def heur2At (l : List Char) : Option (List Char) :=
  match l with
  | c :: rest =>
    if c == '.' || c == ')' then
      let spMax := (rest.takeWhile pyIsSpace).length
      (List.range spMax).findSome? (fun i =>
        let k := spMax - i
        let r1 := rest.drop k
        let tMax := (r1.takeWhile (fun ch => ch != '.')).length
        (List.range tMax).findSome? (fun j =>
          let m := j + 1
          let tgt := r1.drop m
          let sp2 := (tgt.takeWhile pyIsSpace).length
          if sp2 = 0 then none
          else
            match parenYearHere (tgt.drop sp2) with
            | some _ => some (r1.take m)
            | none => none))
    else none
  | [] => none

/-- Embedding of `Citation._extract_title`: a quoted substring wins and is
returned stripped with no length check; otherwise each heuristic pattern is
tried in turn and its stripped capture is returned only when longer than 10
characters. -/
def extractTitle (text : List Char) : Option (List Char) :=
  match searchP quotedAt text with
  | some q => some (pyStrip q)
  | none =>
    let t1 :=
      match searchP heur1At text with
      | some t => some (pyStrip t)
      | none => none
    match t1 with
    | some t =>
      if 10 < t.length then some t
      else
        match searchP heur2At text with
        | some t2 => if 10 < (pyStrip t2).length then some (pyStrip t2) else none
        | none => none
    | none =>
      match searchP heur2At text with
      | some t2 => if 10 < (pyStrip t2).length then some (pyStrip t2) else none
      | none => none

/-- Ascending list of the positions of `c` in `b` (the `b2j` table of
`SequenceMatcher`, with the empty junk set of short inputs). -/
def positionsOf (b : List Char) (c : Char) : List Nat :=
  (List.range b.length).filter (fun j => b.get? j == some c)

/-- Lookup in the `j2len` association table, defaulting to 0. -/
def lookupD (m : List (Nat × Nat)) (k : Nat) : Nat :=
  match m.find? (fun e => e.1 == k) with
  | some e => e.2
  | none => 0

/-- State of the `find_longest_match` dynamic program: the `j2len` table
being built for the current row and the best block found so far. -/
structure FlmSt where
  j2 : List (Nat × Nat)
  bi : Nat
  bj : Nat
  bs : Nat
deriving DecidableEq

/-- Inner loop of `find_longest_match` over the positions of `a[i]` in `b`
(in ascending order, which subsumes the `continue`/`break` on the window
bounds).  `old` is the previous row of `j2len`; the best block is updated
only on a strict improvement, which realises the first-longest-match
tie-breaking of the source. -/
def flmScanJ (blo bhi i : Nat) (old : List (Nat × Nat)) : List Nat → FlmSt → FlmSt
  | [], st => st
  | j :: js, st =>
    if blo ≤ j ∧ j < bhi then
      let prev := if j = 0 then 0 else lookupD old (j - 1)
      let k := prev + 1
      let st1 : FlmSt := { st with j2 := st.j2 ++ [(j, k)] }
      let st2 : FlmSt :=
        if st.bs < k then { st1 with bi := i + 1 - k, bj := j + 1 - k, bs := k } else st1
      flmScanJ blo bhi i old js st2
    else
      flmScanJ blo bhi i old js st
  
/-- Outer loop of `find_longest_match` over the rows `i ∈ [alo, ahi)`. -/
def flmScanI (a b : List Char) (blo bhi : Nat) : List Nat → FlmSt → FlmSt
  | [], st => st
  | i :: is, st =>
    let js := match a.get? i with
      | some c => positionsOf b c
      | none => []
    flmScanI a b blo bhi is
      (flmScanJ blo bhi i st.j2 js { j2 := [], bi := st.bi, bj := st.bj, bs := st.bs })

/-- Equality of `a[i]` and `b[j]` when both indices are in bounds. -/
def chEq (a b : List Char) (i j : Nat) : Bool :=
  match a.get? i, b.get? j with
  | some x, some y => x == y
  | _, _ => false

/-- The left extension loop of `find_longest_match` (no junk, so the
non-junk guard is vacuous); `fuel ≥ bi` makes it run to completion. -/
def extLeft (a b : List Char) (alo blo : Nat) : Nat → Nat × Nat × Nat → Nat × Nat × Nat
  | 0, st => st
  | f + 1, (bi, bj, bs) =>
    if alo < bi ∧ blo < bj ∧ chEq a b (bi - 1) (bj - 1) then
      extLeft a b alo blo f (bi - 1, bj - 1, bs + 1)
    else (bi, bj, bs)

/-- The right extension loop of `find_longest_match`. -/
def extRight (a b : List Char) (ahi bhi : Nat) : Nat → Nat × Nat × Nat → Nat × Nat × Nat
  | 0, st => st
  | f + 1, (bi, bj, bs) =>
    if bi + bs < ahi ∧ bj + bs < bhi ∧ chEq a b (bi + bs) (bj + bs) then
      extRight a b ahi bhi f (bi, bj, bs + 1)
    else (bi, bj, bs)

/-- Embedding of `SequenceMatcher.find_longest_match` on the window
`a[alo:ahi] × b[blo:bhi]`, with the empty junk set. -/
def findLongestMatch (a b : List Char) (alo ahi blo bhi : Nat) : Nat × Nat × Nat :=
  let st := flmScanI a b blo bhi (List.range' alo (ahi - alo))
    { j2 := [], bi := alo, bj := blo, bs := 0 }
  let e1 := extLeft a b alo blo st.bi (st.bi, st.bj, st.bs)
  extRight a b ahi bhi ahi e1

/-- Total size of the matching blocks of `get_matching_blocks` on a window:
the longest match plus the totals of the two recursive windows beside it
(the queue order of the source does not affect the total).  `fuel` bounds
the recursion; both windows flanking a nonempty match are strictly smaller,
so `a.length + b.length + 1` always suffices. -/
def matchTotalFuel (a b : List Char) : Nat → Nat → Nat → Nat → Nat → Nat
  | 0, _, _, _, _ => 0
  | f + 1, alo, ahi, blo, bhi =>
    let r := findLongestMatch a b alo ahi blo bhi
    let i := r.1
    let j := r.2.1
    let k := r.2.2
    if k = 0 then 0
    else
      k + (if alo < i ∧ blo < j then matchTotalFuel a b f alo i blo j else 0)
        + (if i + k < ahi ∧ j + k < bhi then matchTotalFuel a b f (i + k) ahi (j + k) bhi else 0)

/-- Total matched size over the full sequences. -/
def matchTotal (a b : List Char) : Nat :=
  matchTotalFuel a b (a.length + b.length + 1) 0 a.length 0 b.length

/-- Embedding of `SequenceMatcher.ratio()`: `2*M / (len(a)+len(b))`, and 1.0
when both sequences are empty (`_calculate_ratio`). -/
def ratioQ (a b : List Char) : ℚ :=
  if a.length + b.length = 0 then 1
  else 2 * (matchTotal a b : ℚ) / ((a.length : ℚ) + (b.length : ℚ))

/-- Embedding of the `Citation` dataclass.  The derived fields are stored,
as in the source; record equality compares every field, exactly like the
generated dataclass `__eq__`. -/
structure Citation where
  text : List Char
  author : String
  year : Option Int
  category : String
  normalized_text : List Char
  fingerprint : List Char
  doi : Option (List Char)
  title : Option (List Char)
deriving DecidableEq

/-- Python truthiness of an optional string (absent and empty are falsy). -/
def strTruthy : Option (List Char) → Bool
  | none => false
  | some s => !s.isEmpty

/-- Python truthiness of the optional year (absent and 0 are falsy). -/
def yearTruthy : Option Int → Bool
  | none => false
  | some y => y != 0

/-- Stand-in for `hashlib.md5(...).hexdigest()`.  Every claim in this
development uses only that the digest is a deterministic function of its
input string, and the grouping treats equal inputs as equal keys; the
128-bit digest is accordingly modelled as an injective encoding (the
identity on the input). -/
def md5Hex (s : List Char) : List Char := s

/-- Embedding of `Citation._generate_fingerprint`, as a function of the
already-derived fields: the DOI key when the DOI is truthy, else the
normalized text joined with the year (or the `no_year` sentinel, which the
`or` of the f-string also selects for a falsy year 0). -/
def genFingerprint (doi : Option (List Char)) (nt : List Char) (year : Option Int) : List Char :=
  if strTruthy doi then md5Hex (['d', 'o', 'i', ':'] ++ doi.getD [])
  else
    let ys : List Char :=
      match year with
      | some y => if y != 0 then (toString y).data else ['n', 'o', '_', 'y', 'e', 'a', 'r']
      | none => ['n', 'o', '_', 'y', 'e', 'a', 'r']
    md5Hex (nt ++ ':' :: ys)

/-- Embedding of the `Citation` constructor together with `__post_init__`:
the year is extracted only when not supplied, and the derived fields are
computed from the text (and year) alone, in the order of the source (DOI
before fingerprint). -/
def mkCitation (text : List Char) (author : String) (year : Option Int) (category : String) :
    Citation :=
  let y := match year with
    | none => extractYear text
    | some v => some v
  let nt := normalizeText text
  let d := extractDoi text
  let t := extractTitle text
  { text := text, author := author, year := y, category := category,
    normalized_text := nt, fingerprint := genFingerprint d nt y, doi := d, title := t }

/-- Embedding of `Citation._normalize_string` (used on titles): lower-case,
keep only word characters and whitespace, strip. -/
def normalizeString (t : List Char) : List Char :=
  pyStrip ((t.map Char.toLower).filter (fun c => isWordChar c || pyIsSpace c))

/-- Embedding of `Citation.similarity_score`: DOI equality is definitive
(1.0); equal normalized titles with equal year fields give 0.95; otherwise
the `SequenceMatcher` ratio of the normalized texts, with a +0.1 boost
capped at 1.0 when both years are truthy and equal. -/
def similarityScore (s o : Citation) : ℚ :=
  if strTruthy s.doi ∧ strTruthy o.doi ∧ s.doi = o.doi then 1
  else if strTruthy s.title ∧ strTruthy o.title ∧ s.year = o.year ∧
      normalizeString (s.title.getD []) = normalizeString (o.title.getD []) then 19 / 20
  else if yearTruthy s.year ∧ yearTruthy o.year ∧ s.year = o.year then
    min 1 (ratioQ s.normalized_text o.normalized_text + 1 / 10)
  else ratioQ s.normalized_text o.normalized_text

/-- Embedding of `Citation.is_duplicate_of`. -/
def isDuplicateOf (s o : Citation) (threshold : ℚ) : Bool :=
  decide (threshold ≤ similarityScore s o)

/-- Embedding of the deduplication-relevant fields of `AnalysisConfig`.
The dataclass performs no validation: any string is accepted as
`duplicate_strategy`. -/
structure AnalysisConfig where
  enable_duplicate_detection : Bool := true
  similarity_threshold : ℚ := 17 / 20
  duplicate_strategy : String := "keep_first"
  report_duplicates : Bool := true

/-- Python `max(group, key=lambda c: len(c.text))` keeps the first maximum:
a later element replaces the current best only when strictly longer. -/
def maxByTextLen : Citation → List Citation → Citation
  | best, [] => best
  | best, c :: rest => maxByTextLen (if best.text.length < c.text.length then c else best) rest

/-- Python `max` over a citation list by text length (the empty case never
arises in the source; a dummy citation is returned there). -/
def pyMaxTextLen : List Citation → Citation
  | [] => mkCitation [] "" none ""
  | c :: rest => maxByTextLen c rest

/-- The survivor chosen by the `keep_most_complete` branch of
`_resolve_duplicate_group` (the local `best` of the source): the longest
element with a truthy DOI, or the longest overall when none has one. -/
def mcBest (g : List Citation) : Citation :=
  if (g.filter (fun c => strTruthy c.doi)).length ≠ 0 then
    pyMaxTextLen (g.filter (fun c => strTruthy c.doi))
  else pyMaxTextLen g

/-- Embedding of `CitationAnalyzer._resolve_duplicate_group`.  Note the
structure of the source: groups of at most one element pass through; the
three known strategies each produce one survivor; any other strategy string
leaves both result lists empty. -/
def resolveDuplicateGroup (strategy : String) (group : List Citation) :
    List Citation × List (Citation × Citation) :=
  if group.length ≤ 1 then (group, [])
  else if strategy = "keep_first" then
    match group with
    | [] => ([], [])
    | g0 :: rest => ([g0], rest.map (fun d => (g0, d)))
  else if strategy = "keep_longest" then
    ([pyMaxTextLen group],
      (group.filter (fun d => d ≠ pyMaxTextLen group)).map (fun d => (pyMaxTextLen group, d)))
  else if strategy = "keep_most_complete" then
    ([mcBest group],
      (group.filter (fun d => d ≠ mcBest group)).map (fun d => (mcBest group, d)))
  else ([], [])

/-- Embedding of `CitationAnalyzer._should_replace`. -/
def shouldReplace (strategy : String) (existing new : Citation) : Bool :=
  if strategy = "keep_first" then false
  else if strategy = "keep_longest" then existing.text.length < new.text.length
  else if strategy = "keep_most_complete" then
    if strTruthy new.doi && !strTruthy existing.doi then true
    else if strTruthy existing.doi && !strTruthy new.doi then false
    else decide (existing.text.length < new.text.length)
  else false

/-- One iteration of the candidate loop of
`CitationAnalyzer._remove_similar_duplicates`: the candidate is compared
against the accepted list in order and the first match (if any) triggers
the keep/replace decision (`list.remove` deletes the first equal element,
modelled by `List.erase`); the ledger records the (kept, removed) pair. -/
def simStep (cfg : AnalysisConfig) (st : List Citation × List (Citation × Citation))
    (c : Citation) : List Citation × List (Citation × Citation) :=
  match st.1.find? (fun u => isDuplicateOf c u cfg.similarity_threshold) with
  | some u =>
    if shouldReplace cfg.duplicate_strategy u c then
      (st.1.erase u ++ [c], st.2 ++ [(c, u)])
    else
      (st.1, st.2 ++ [(u, c)])
  | none => (st.1 ++ [c], st.2)

/-- Embedding of `CitationAnalyzer._remove_similar_duplicates`, threading
the duplicate ledger. -/
def removeSimilarDuplicates (cfg : AnalysisConfig) (cs : List Citation)
    (ledger : List (Citation × Citation)) : List Citation × List (Citation × Citation) :=
  cs.foldl (simStep cfg) ([], ledger)

/-- Insert a citation into the fingerprint grouping: append to the first
entry with its fingerprint, or append a fresh entry at the end (insertion
order of `defaultdict`). -/
def addToGroup (c : Citation) : List (List Char × List Citation) → List (List Char × List Citation)
  | [] => [(c.fingerprint, [c])]
  | (k, g) :: rest =>
    if k = c.fingerprint then (k, g ++ [c]) :: rest
    else (k, g) :: addToGroup c rest

/-- The fingerprint grouping of `_remove_duplicates` (a `defaultdict(list)`
filled in input order, iterated in key-insertion order). -/
def groupByFingerprint (cs : List Citation) : List (List Char × List Citation) :=
  cs.foldl (fun m c => addToGroup c m) []

/-- One iteration of the group loop of `_remove_duplicates`: singleton
groups pass through, larger groups are resolved and their removed pairs
extend the ledger. -/
def dedupStep (cfg : AnalysisConfig) (st : List Citation × List (Citation × Citation))
    (kg : List Char × List Citation) : List Citation × List (Citation × Citation) :=
  if kg.2.length = 1 then (st.1 ++ kg.2, st.2)
  else
    (st.1 ++ (resolveDuplicateGroup cfg.duplicate_strategy kg.2).1,
      st.2 ++ (resolveDuplicateGroup cfg.duplicate_strategy kg.2).2)

/-- The exact-fingerprint stage of `CitationAnalyzer._remove_duplicates`. -/
def exactDedup (cfg : AnalysisConfig) (cs : List Citation) :
    List Citation × List (Citation × Citation) :=
  (groupByFingerprint cs).foldl (dedupStep cfg) ([], [])

/-- Embedding of `CitationAnalyzer._remove_duplicates` (its pure core): the
exact-fingerprint stage always runs; the similarity pass runs only when
`similarity_threshold < 1.0`. -/
def removeDuplicates (cfg : AnalysisConfig) (cs : List Citation) :
    List Citation × List (Citation × Citation) :=
  let e := exactDedup cfg cs
  if cfg.similarity_threshold < 1 then removeSimilarDuplicates cfg e.1 e.2
  else e

/-- The duplicate-detection gate of `load_data`: `_remove_duplicates` runs
only when `enable_duplicate_detection` is set. -/
def processCitations (cfg : AnalysisConfig) (cs : List Citation) :
    List Citation × List (Citation × Citation) :=
  if cfg.enable_duplicate_detection then removeDuplicates cfg cs else (cs, [])

/-- Append a citation to its year entry (insertion order of the inner
`defaultdict(list)`). -/
def addToYears (y : Int) (c : Citation) : List (Int × List Citation) → List (Int × List Citation)
  | [] => [(y, [c])]
  | (k, l) :: rest =>
    if k = y then (k, l ++ [c]) :: rest else (k, l) :: addToYears y c rest

/-- Append a citation to its category entry (insertion order of the outer
`defaultdict`). -/
def addToOrganized (c : Citation) (y : Int) :
    List (String × List (Int × List Citation)) → List (String × List (Int × List Citation))
  | [] => [(c.category, addToYears y c [])]
  | (cat, ys) :: rest =>
    if cat = c.category then (cat, addToYears y c ys) :: rest
    else (cat, ys) :: addToOrganized c y rest

/-- Embedding of `CitationAnalyzer._organize_citations`: citations with a
truthy year are grouped by category then year in input order, and each
category's year entries are then sorted by key, newest first
(`sorted(..., reverse=True)`; keys are distinct, so any stable sort gives
the same result, modelled by insertion sort on `≥` of the keys). -/
def organizeCitations (cs : List Citation) : List (String × List (Int × List Citation)) :=
  let raw := cs.foldl
    (fun m c => if yearTruthy c.year then addToOrganized c (c.year.getD 0) m else m) []
  raw.map (fun e => (e.1, List.insertionSort (fun x yv => yv.1 ≤ x.1) e.2))

/-- The group stored under fingerprint `k` (first entry with that key,
empty when the key is absent). -/
def fpGroup (k : List Char) : List (List Char × List Citation) → List Citation
  | [] => []
  | e :: rest => if e.1 = k then e.2 else fpGroup k rest

/-- The two citations of the similarity-asymmetry analysis: no year, DOI or
title is extracted from either text, so their score is the bare
`SequenceMatcher` ratio of the lower-cased texts. -/
def cSymA : Citation := mkCitation "abcdXe".data "auth1" none "cat"

/-- Companion of `cSymA` (same characters, rearranged). -/
def cSymB : Citation := mkCitation "cdYeab".data "auth2" none "cat"

/-- A citation with an extractable DOI `10.1/abc` inside a parenthetical, so
its normalized text is `alpha beta`. -/
def cDoi5 : Citation := mkCitation "alpha beta (10.1/abc)".data "auth1" none "cat"

/-- A citation with no DOI whose normalized text is also `alpha beta`, and
whose raw text is longer than that of `cDoi5`. -/
def cPlainLong : Citation := mkCitation "alpha              beta".data "auth2" none "cat"

/-- A citation with year 2020 and DOI `10.1/abc`; normalized text
`alpha beta`. -/
def cY1 : Citation := mkCitation "alpha beta (2020) (10.1/abc)".data "auth1" none "cat"

/-- A citation with year 2020 and no DOI; normalized text `alpha beta`. -/
def cY2 : Citation := mkCitation "alpha beta (2020)".data "auth2" none "cat"

/-- A plain citation used to build groups of identical records. -/
def cDup : Citation := mkCitation "alpha beta (2020)".data "smith" none "cat"

/-- Citations with explicit years for the organizer ordering test. -/
def cOrg19 : Citation := mkCitation "t1".data "a" (some 2019) "cat"

/-- Organizer test citation, year 2022. -/
def cOrg22 : Citation := mkCitation "t2".data "a" (some 2022) "cat"

/-- Organizer test citation, year 2020. -/
def cOrg20 : Citation := mkCitation "t3".data "a" (some 2020) "cat"

/-- Configuration with the `keep_most_complete` strategy (other fields at
the source defaults). -/
def cfgMC : AnalysisConfig := { duplicate_strategy := "keep_most_complete" }

/-- The default configuration (`keep_first`, threshold 0.85). -/
def cfgKF : AnalysisConfig := {}

/-- The default configuration with `similarity_threshold = 1.0`. -/
def cfgT1 : AnalysisConfig := { similarity_threshold := 1 }

/-- A configuration whose strategy is not one of the three known values. -/
def cfgTypo : AnalysisConfig := { duplicate_strategy := "typo_strategy" }

/-- Citation with DOI `10.1/abc` (short text), for the C4 witness. -/
def cDoiX : Citation := mkCitation "x (10.1/abc)".data "a" none "k"

/-- Citation with the same DOI `10.1/abc` (different text). -/
def cDoiY : Citation := mkCitation "yy (10.1/abc)".data "a" none "k"

theorem fpGroup_addToGroup (k : List Char) (c : Citation)
    (m : List (List Char × List Citation)) :
    fpGroup k (addToGroup c m) =
      fpGroup k m ++ (if c.fingerprint = k then [c] else []) := by
  induction m with
  | nil =>
    by_cases h : c.fingerprint = k
    · simp [addToGroup, fpGroup, h]
    · simp [addToGroup, fpGroup, h]
  | cons e rest ih =>
    rcases e with ⟨ke, ge⟩
    by_cases hk : ke = c.fingerprint
    · by_cases h2 : ke = k
      · simp [addToGroup, fpGroup, hk, h2, hk ▸ h2]
      · have h3 : ¬ c.fingerprint = k := fun hh => h2 (hk.trans hh)
        simp [addToGroup, fpGroup, hk, h2, h3]
    · by_cases h2 : ke = k
      · subst h2
        have h3 : ¬ c.fingerprint = ke := fun hh => hk hh.symm
        simp [addToGroup, fpGroup, hk, h3]
      · simpa [addToGroup, fpGroup, hk, h2] using ih

theorem fpGroup_foldl (k : List Char) :
    ∀ (cs : List Citation) (m : List (List Char × List Citation)),
      fpGroup k (cs.foldl (fun m c => addToGroup c m) m) =
        fpGroup k m ++ cs.filter (fun c => decide (c.fingerprint = k))
  | [], m => by simp
  | c :: cs, m => by
    by_cases h : c.fingerprint = k
    · simp [List.foldl_cons, fpGroup_foldl k cs (addToGroup c m),
        fpGroup_addToGroup, h, List.filter_cons, List.append_assoc]
    · simp [List.foldl_cons, fpGroup_foldl k cs (addToGroup c m),
        fpGroup_addToGroup, h, List.filter_cons]

theorem fpGroup_groupByFingerprint (k : List Char) (cs : List Citation) :
    fpGroup k (groupByFingerprint cs) = cs.filter (fun c => decide (c.fingerprint = k)) := by
  simpa [fpGroup] using fpGroup_foldl k cs []

theorem maxByTextLen_mem :
    ∀ (l : List Citation) (best : Citation), maxByTextLen best l ∈ best :: l
  | [], best => by simp [maxByTextLen]
  | c :: rest, best => by
    by_cases hc : best.text.length < c.text.length
    · have ih := maxByTextLen_mem rest c
      simp only [maxByTextLen, if_pos hc]
      exact List.mem_cons_of_mem best ih
    · have ih := maxByTextLen_mem rest best
      simp only [maxByTextLen, if_neg hc]
      rcases List.mem_cons.1 ih with h | h
      · exact List.mem_cons.2 (Or.inl h)
      · exact List.mem_cons_of_mem _ (List.mem_cons_of_mem _ h)

theorem maxByTextLen_le :
    ∀ (l : List Citation) (best c : Citation), c ∈ best :: l →
      c.text.length ≤ (maxByTextLen best l).text.length
  | [], best, c, h => by
    have hcb : c = best := by simpa using h
    simp [maxByTextLen, hcb]
  | a :: rest, best, c, h => by
    simp only [maxByTextLen]
    have hb : best.text.length ≤
        (if best.text.length < a.text.length then a else best).text.length := by
      by_cases hc : best.text.length < a.text.length
      · rw [if_pos hc]
        omega
      · rw [if_neg hc]
    have ha : a.text.length ≤
        (if best.text.length < a.text.length then a else best).text.length := by
      by_cases hc : best.text.length < a.text.length
      · rw [if_pos hc]
      · rw [if_neg hc]
        omega
    have hbm := maxByTextLen_le rest (if best.text.length < a.text.length then a else best)
      (if best.text.length < a.text.length then a else best) (List.mem_cons_self _ _)
    rcases List.mem_cons.1 h with h1 | h1
    · subst h1
      exact le_trans hb hbm
    · rcases List.mem_cons.1 h1 with h2 | h2
      · subst h2
        exact le_trans ha hbm
      · exact maxByTextLen_le rest _ c (List.mem_cons_of_mem _ h2)

theorem pyMaxTextLen_mem (g : List Citation) (h : g ≠ []) : pyMaxTextLen g ∈ g := by
  cases g with
  | nil => exact absurd rfl h
  | cons c rest => exact maxByTextLen_mem rest c

theorem pyMaxTextLen_le (g : List Citation) (c : Citation) (h : c ∈ g) :
    c.text.length ≤ (pyMaxTextLen g).text.length := by
  cases g with
  | nil => simp at h
  | cons a rest => exact maxByTextLen_le rest a c h

theorem length_filter_not_eq (g : List Citation) (x : Citation) :
    (g.filter (fun d => !decide (d = x))).length =
      g.length - g.countP (fun d => decide (d = x)) := by
  induction g with
  | nil => rfl
  | cons a l ih =>
    have hc := List.countP_le_length (p := fun d => decide (d = x)) (l := l)
    by_cases h : a = x
    · simp [List.filter_cons, List.countP_cons, h, ih]
    · simp [List.filter_cons, List.countP_cons, h, ih]
      omega

theorem addToGroup_mem_sub (c : Citation) (X : List Citation) (hc : c ∈ X) :
    ∀ (m : List (List Char × List Citation)),
      (∀ e ∈ m, ∀ x ∈ e.2, x ∈ X) →
      ∀ e ∈ addToGroup c m, ∀ x ∈ e.2, x ∈ X
  | [], hm, e, he, x, hx => by
    simp only [addToGroup, List.mem_singleton] at he
    subst he
    simp only [List.mem_singleton] at hx
    subst hx
    exact hc
  | (ke, ge) :: rest, hm, e, he, x, hx => by
    by_cases hk : ke = c.fingerprint
    · simp only [addToGroup, if_pos hk] at he
      rcases List.mem_cons.1 he with h | h
      · subst h
        rcases List.mem_append.1 hx with h2 | h2
        · exact hm (ke, ge) (List.mem_cons_self _ _) x h2
        · simp only [List.mem_singleton] at h2
          subst h2
          exact hc
      · exact hm e (List.mem_cons_of_mem _ h) x hx
    · simp only [addToGroup, if_neg hk] at he
      rcases List.mem_cons.1 he with h | h
      · subst h
        exact hm (ke, ge) (List.mem_cons_self _ _) x hx
      · exact addToGroup_mem_sub c X hc rest
          (fun e2 he2 => hm e2 (List.mem_cons_of_mem _ he2)) e h x hx

theorem groupFold_mem_sub (X : List Citation) :
    ∀ (cs : List Citation) (m : List (List Char × List Citation)),
      (∀ e ∈ m, ∀ x ∈ e.2, x ∈ X) → (∀ c ∈ cs, c ∈ X) →
      ∀ e ∈ cs.foldl (fun m c => addToGroup c m) m, ∀ x ∈ e.2, x ∈ X
  | [], _, hm, _, e, he, x, hx => hm e he x hx
  | c :: cs, m, hm, hcs, e, he, x, hx =>
    groupFold_mem_sub X cs (addToGroup c m)
      (addToGroup_mem_sub c X (hcs c (List.mem_cons_self _ _)) m hm)
      (fun d hd => hcs d (List.mem_cons_of_mem _ hd)) e he x hx

theorem groupBy_mem_sub (cs : List Citation) :
    ∀ e ∈ groupByFingerprint cs, ∀ x ∈ e.2, x ∈ cs :=
  groupFold_mem_sub cs cs [] (by simp) (fun _ h => h)

theorem resolve_fst_sub (s : String) (g : List Citation) :
    ∀ x ∈ (resolveDuplicateGroup s g).1, x ∈ g := by
  unfold resolveDuplicateGroup
  by_cases h1 : g.length ≤ 1
  · rw [if_pos h1]
    exact fun x hx => hx
  · rw [if_neg h1]
    have hg : g ≠ [] := by
      intro hg
      subst hg
      simp at h1
    by_cases h2 : s = "keep_first"
    · rw [if_pos h2]
      cases g with
      | nil => simp
      | cons g0 rest =>
        intro x hx
        simp only [List.mem_singleton] at hx
        subst hx
        exact List.mem_cons_self _ _
    · rw [if_neg h2]
      by_cases h3 : s = "keep_longest"
      · rw [if_pos h3]
        intro x hx
        simp only [List.mem_singleton] at hx
        subst hx
        exact pyMaxTextLen_mem g hg
      · rw [if_neg h3]
        by_cases h4 : s = "keep_most_complete"
        · rw [if_pos h4]
          intro x hx
          simp only [List.mem_singleton] at hx
          subst hx
          unfold mcBest
          by_cases h5 : (g.filter (fun c => strTruthy c.doi)).length ≠ 0
          · rw [if_pos h5]
            have hne : g.filter (fun c => strTruthy c.doi) ≠ [] := by
              intro hh
              exact h5 (by rw [hh]; rfl)
            exact List.mem_of_mem_filter (pyMaxTextLen_mem _ hne)
          · rw [if_neg h5]
            exact pyMaxTextLen_mem g hg
        · rw [if_neg h4]
          simp

theorem dedupFold_mem_sub (cfg : AnalysisConfig) (X : List Citation) :
    ∀ (gs : List (List Char × List Citation)) (acc : List Citation)
      (l : List (Citation × Citation)),
      (∀ x ∈ acc, x ∈ X) → (∀ e ∈ gs, ∀ x ∈ e.2, x ∈ X) →
      ∀ x ∈ (gs.foldl (dedupStep cfg) (acc, l)).1, x ∈ X
  | [], acc, l, hacc, _, x, hx => hacc x hx
  | kg :: gs, acc, l, hacc, hgs, x, hx => by
    simp only [List.foldl_cons] at hx
    have hkg : ∀ x ∈ kg.2, x ∈ X := hgs kg (List.mem_cons_self _ _)
    have hgs2 : ∀ e ∈ gs, ∀ x ∈ e.2, x ∈ X := fun e he => hgs e (List.mem_cons_of_mem _ he)
    by_cases h1 : kg.2.length = 1
    · have hstep : dedupStep cfg (acc, l) kg = (acc ++ kg.2, l) := by
        simp [dedupStep, h1]
      rw [hstep] at hx
      refine dedupFold_mem_sub cfg X gs (acc ++ kg.2) l ?_ hgs2 x hx
      intro y hy
      rcases List.mem_append.1 hy with h | h
      · exact hacc y h
      · exact hkg y h
    · have hstep : dedupStep cfg (acc, l) kg =
          (acc ++ (resolveDuplicateGroup cfg.duplicate_strategy kg.2).1,
            l ++ (resolveDuplicateGroup cfg.duplicate_strategy kg.2).2) := by
        simp [dedupStep, h1]
      rw [hstep] at hx
      refine dedupFold_mem_sub cfg X gs _ _ ?_ hgs2 x hx
      intro y hy
      rcases List.mem_append.1 hy with h | h
      · exact hacc y h
      · exact hkg y (resolve_fst_sub _ _ y h)

theorem exactDedup_mem_sub (cfg : AnalysisConfig) (cs : List Citation) :
    ∀ x ∈ (exactDedup cfg cs).1, x ∈ cs :=
  dedupFold_mem_sub cfg cs (groupByFingerprint cs) [] [] (by simp) (groupBy_mem_sub cs)

theorem simFold_mem_sub (cfg : AnalysisConfig) :
    ∀ (cs acc : List Citation) (l : List (Citation × Citation)) (x : Citation),
      x ∈ (cs.foldl (simStep cfg) (acc, l)).1 → x ∈ acc ∨ x ∈ cs
  | [], acc, l, x, hx => by
    simp only [List.foldl_nil] at hx
    exact Or.inl hx
  | c :: cs, acc, l, x, hx => by
    simp only [List.foldl_cons] at hx
    cases hfind : acc.find? (fun u => isDuplicateOf c u cfg.similarity_threshold) with
    | none =>
      have hstep : simStep cfg (acc, l) c = (acc ++ [c], l) := by
        simp [simStep, hfind]
      rw [hstep] at hx
      rcases simFold_mem_sub cfg cs (acc ++ [c]) l x hx with h | h
      · rcases List.mem_append.1 h with h2 | h2
        · exact Or.inl h2
        · simp only [List.mem_singleton] at h2
          exact Or.inr (h2 ▸ List.mem_cons_self _ _)
      · exact Or.inr (List.mem_cons_of_mem _ h)
    | some u =>
      by_cases hsr : shouldReplace cfg.duplicate_strategy u c = true
      · have hstep : simStep cfg (acc, l) c = (acc.erase u ++ [c], l ++ [(c, u)]) := by
          simp [simStep, hfind, hsr]
        rw [hstep] at hx
        rcases simFold_mem_sub cfg cs _ _ x hx with h | h
        · rcases List.mem_append.1 h with h2 | h2
          · exact Or.inl (List.mem_of_mem_erase h2)
          · simp only [List.mem_singleton] at h2
            exact Or.inr (h2 ▸ List.mem_cons_self _ _)
        · exact Or.inr (List.mem_cons_of_mem _ h)
      · have hsr2 : shouldReplace cfg.duplicate_strategy u c = false := by
          simpa using hsr
        have hstep : simStep cfg (acc, l) c = (acc, l ++ [(u, c)]) := by
          simp [simStep, hfind, hsr2]
        rw [hstep] at hx
        rcases simFold_mem_sub cfg cs acc _ x hx with h | h
        · exact Or.inl h
        · exact Or.inr (List.mem_cons_of_mem _ h)

theorem simFold_keepFirst_sublist (cfg : AnalysisConfig)
    (h : cfg.duplicate_strategy = "keep_first") :
    ∀ (cs acc : List Citation) (l : List (Citation × Citation)) (X : List Citation),
      acc.Sublist X → ((cs.foldl (simStep cfg) (acc, l)).1).Sublist (X ++ cs)
  | [], acc, l, X, hacc => by simpa using hacc
  | c :: cs, acc, l, X, hacc => by
    have hassoc : (X ++ [c]) ++ cs = X ++ c :: cs := by simp
    simp only [List.foldl_cons]
    cases hfind : acc.find? (fun u => isDuplicateOf c u cfg.similarity_threshold) with
    | none =>
      have hstep : simStep cfg (acc, l) c = (acc ++ [c], l) := by
        simp [simStep, hfind]
      rw [hstep]
      have ih := simFold_keepFirst_sublist cfg h cs (acc ++ [c]) l (X ++ [c])
        (hacc.append (List.Sublist.refl [c]))
      rw [hassoc] at ih
      exact ih
    | some u =>
      have hsr : shouldReplace cfg.duplicate_strategy u c = false := by
        rw [h]
        rfl
      have hstep : simStep cfg (acc, l) c = (acc, l ++ [(u, c)]) := by
        simp [simStep, hfind, hsr]
      rw [hstep]
      have ih := simFold_keepFirst_sublist cfg h cs acc (l ++ [(u, c)]) (X ++ [c])
        (hacc.trans (List.sublist_append_left X [c]))
      rw [hassoc] at ih
      exact ih

theorem ratioQ_eq_of (a b : List Char) (m la lb : Nat) (hm : matchTotal a b = m)
    (ha : a.length = la) (hb : b.length = lb) (h0 : la + lb ≠ 0) :
    ratioQ a b = 2 * (m : ℚ) / ((la : ℚ) + (lb : ℚ)) := by
  unfold ratioQ
  rw [hm, ha, hb, if_neg h0]

theorem similarityScore_plain (s o : Citation)
    (h1 : ¬(strTruthy s.doi ∧ strTruthy o.doi ∧ s.doi = o.doi))
    (h2 : ¬(strTruthy s.title ∧ strTruthy o.title ∧ s.year = o.year ∧
      normalizeString (s.title.getD []) = normalizeString (o.title.getD [])))
    (h3 : ¬(yearTruthy s.year ∧ yearTruthy o.year ∧ s.year = o.year)) :
    similarityScore s o = ratioQ s.normalized_text o.normalized_text := by
  unfold similarityScore
  rw [if_neg h1, if_neg h2, if_neg h3]

theorem similarityScore_boost (s o : Citation)
    (h1 : ¬(strTruthy s.doi ∧ strTruthy o.doi ∧ s.doi = o.doi))
    (h2 : ¬(strTruthy s.title ∧ strTruthy o.title ∧ s.year = o.year ∧
      normalizeString (s.title.getD []) = normalizeString (o.title.getD [])))
    (h3 : yearTruthy s.year ∧ yearTruthy o.year ∧ s.year = o.year) :
    similarityScore s o = min 1 (ratioQ s.normalized_text o.normalized_text + 1 / 10) := by
  unfold similarityScore
  rw [if_neg h1, if_neg h2, if_pos h3]

theorem score_cSymA_cSymB : similarityScore cSymA cSymB = 1 / 3 := by
  rw [similarityScore_plain cSymA cSymB (by decide) (by decide) (by decide)]
  have hnA : cSymA.normalized_text = "abcdxe".data := by decide
  have hnB : cSymB.normalized_text = "cdyeab".data := by decide
  rw [hnA, hnB, ratioQ_eq_of _ _ 2 6 6 (by decide) (by decide) (by decide) (by decide)]
  norm_num

theorem score_cSymB_cSymA : similarityScore cSymB cSymA = 1 / 2 := by
  rw [similarityScore_plain cSymB cSymA (by decide) (by decide) (by decide)]
  have hnA : cSymA.normalized_text = "abcdxe".data := by decide
  have hnB : cSymB.normalized_text = "cdyeab".data := by decide
  rw [hnA, hnB, ratioQ_eq_of _ _ 3 6 6 (by decide) (by decide) (by decide) (by decide)]
  norm_num

theorem score_cPlainLong_cDoi5 : similarityScore cPlainLong cDoi5 = 1 := by
  rw [similarityScore_plain cPlainLong cDoi5 (by decide) (by decide) (by decide)]
  have hnA : cPlainLong.normalized_text = "alpha beta".data := by decide
  have hnB : cDoi5.normalized_text = "alpha beta".data := by decide
  rw [hnA, hnB, ratioQ_eq_of _ _ 10 10 10 (by decide) (by decide) (by decide) (by decide)]
  norm_num

theorem score_cDoi5_cPlainLong : similarityScore cDoi5 cPlainLong = 1 := by
  rw [similarityScore_plain cDoi5 cPlainLong (by decide) (by decide) (by decide)]
  have hnA : cPlainLong.normalized_text = "alpha beta".data := by decide
  have hnB : cDoi5.normalized_text = "alpha beta".data := by decide
  rw [hnA, hnB, ratioQ_eq_of _ _ 10 10 10 (by decide) (by decide) (by decide) (by decide)]
  norm_num

theorem score_cY2_cY1 : similarityScore cY2 cY1 = 1 := by
  rw [similarityScore_boost cY2 cY1 (by decide) (by decide) (by decide)]
  have hnA : cY2.normalized_text = "alpha beta".data := by decide
  have hnB : cY1.normalized_text = "alpha beta".data := by decide
  rw [hnA, hnB, ratioQ_eq_of _ _ 10 10 10 (by decide) (by decide) (by decide) (by decide)]
  norm_num

theorem isDup_cPlainLong_cDoi5 : isDuplicateOf cPlainLong cDoi5 (17 / 20) = true := by
  simp only [isDuplicateOf, score_cPlainLong_cDoi5, decide_eq_true_eq]
  norm_num

theorem isDup_cDoi5_cPlainLong : isDuplicateOf cDoi5 cPlainLong (17 / 20) = true := by
  simp only [isDuplicateOf, score_cDoi5_cPlainLong, decide_eq_true_eq]
  norm_num

theorem isDup_cY2_cY1_one : isDuplicateOf cY2 cY1 (1 : ℚ) = true := by
  simp only [isDuplicateOf, score_cY2_cY1, decide_eq_true_eq]
  norm_num

theorem c5run1 : (removeSimilarDuplicates cfgMC [cDoi5, cPlainLong] []).1 = [cDoi5] := by
  have hsr : shouldReplace "keep_most_complete" cDoi5 cPlainLong = false := by decide
  have hs1 : simStep cfgMC ([], []) cDoi5 = ([cDoi5], []) := by
    simp [simStep]
  have hfind : List.find? (fun u => isDuplicateOf cPlainLong u cfgMC.similarity_threshold)
      [cDoi5] = some cDoi5 :=
    List.find?_cons_of_pos _ isDup_cPlainLong_cDoi5
  have hstrat : cfgMC.duplicate_strategy = "keep_most_complete" := rfl
  have hs2 : simStep cfgMC ([cDoi5], []) cPlainLong = ([cDoi5], [(cDoi5, cPlainLong)]) := by
    simp [simStep, hfind, hstrat, hsr]
  simp only [removeSimilarDuplicates, List.foldl_cons, List.foldl_nil, hs1, hs2]

theorem c5run2 : (removeSimilarDuplicates cfgMC [cPlainLong, cDoi5] []).1 = [cDoi5] := by
  have hsr : shouldReplace "keep_most_complete" cPlainLong cDoi5 = true := by decide
  have hs1 : simStep cfgMC ([], []) cPlainLong = ([cPlainLong], []) := by
    simp [simStep]
  have hfind : List.find? (fun u => isDuplicateOf cDoi5 u cfgMC.similarity_threshold)
      [cPlainLong] = some cPlainLong :=
    List.find?_cons_of_pos _ isDup_cDoi5_cPlainLong
  have herase : [cPlainLong].erase cPlainLong = [] := by decide
  have hstrat : cfgMC.duplicate_strategy = "keep_most_complete" := rfl
  have hs2 : simStep cfgMC ([cPlainLong], []) cDoi5 = ([cDoi5], [(cDoi5, cPlainLong)]) := by
    simp [simStep, hfind, hstrat, hsr, herase]
  simp only [removeSimilarDuplicates, List.foldl_cons, List.foldl_nil, hs1, hs2]

theorem two_le_length_of_mem_ne {α : Type} (l : List α) (a b : α)
    (ha : a ∈ l) (hb : b ∈ l) (hab : a ≠ b) : 2 ≤ l.length := by
  cases l with
  | nil => simp at ha
  | cons x rest =>
    cases rest with
    | nil =>
      simp only [List.mem_singleton] at ha hb
      exact absurd (ha.trans hb.symm) hab
    | cons y rest2 => simp
      
theorem resolve_known_length_one (s : String)
    (hs : s = "keep_first" ∨ s = "keep_longest" ∨ s = "keep_most_complete")
    (g : List Citation) (h : 2 ≤ g.length) :
    ((resolveDuplicateGroup s g).1).length = 1 := by
  have h1 : ¬ g.length ≤ 1 := by omega
  unfold resolveDuplicateGroup
  rw [if_neg h1]
  rcases hs with hs | hs | hs
  · subst hs
    rw [if_pos rfl]
    cases g with
    | nil => simp at h
    | cons g0 rest => rfl
  · subst hs
    rw [if_neg (by decide), if_pos rfl]
    rfl
  · subst hs
    rw [if_neg (by decide), if_neg (by decide), if_pos rfl]
    rfl

/-- C1: the claim says a configuration whose `duplicate_strategy` is not
one of the three known values must fail at configuration time, before any
deduplication work.  The code has no such check: the dataclass accepts any
string, the pipeline runs to completion without error, and
`_resolve_duplicate_group` returns an empty kept list for every group of
two or more citations, silently discarding the whole group (here two equal
citations vanish and even the duplicate ledger stays empty). -/
theorem c1_unknown_strategy_runs_and_drops :
    cfgTypo.duplicate_strategy = "typo_strategy" ∧
    resolveDuplicateGroup cfgTypo.duplicate_strategy [cDup, cDup] = ([], []) ∧
    removeDuplicates cfgTypo [cDup, cDup] = ([], []) := by
  refine ⟨rfl, by decide, ?_⟩
  simp only [removeDuplicates]
  have hth : cfgTypo.similarity_threshold = 17 / 20 := rfl
  rw [hth, if_pos (by norm_num : (17 : ℚ) / 20 < 1)]
  have hE : exactDedup cfgTypo [cDup, cDup] = ([], []) := by decide
  rw [hE]
  rfl

/-- C2 counterexample: a fingerprint group of two identical records under
`keep_longest` contributes zero ledger entries, not `size - 1`, because the
source filters removed pairs with record inequality (`dup != longest`). -/
theorem c2_counterexample :
    ¬ ((resolveDuplicateGroup "keep_longest" [cDup, cDup]).2.length =
        [cDup, cDup].length - 1) := by
  decide

/-- C2 amended: for a group of size at least two, under `keep_first` the
ledger receives exactly the pairs (first element, d) for every later
element d — `size - 1` entries; under `keep_longest` and
`keep_most_complete` it receives exactly the pairs (survivor, d) for every
group element d not equal (as a full record) to the survivor — both as the
literal ledger equation and as the two membership directions — so those
strategies contribute `size` minus the number of elements record-equal to
the survivor, which is `size - 1` exactly when no other element is
record-equal to the survivor. -/
theorem c2_ledger_counts (g : List Citation) (h : 2 ≤ g.length) :
    (∃ g0 rest, g = g0 :: rest ∧
      (resolveDuplicateGroup "keep_first" g).1 = [g0] ∧
      (resolveDuplicateGroup "keep_first" g).2 = rest.map (fun d => (g0, d)) ∧
      (resolveDuplicateGroup "keep_first" g).2.length = g.length - 1) ∧
    ((resolveDuplicateGroup "keep_longest" g).2 =
        (g.filter (fun d => d ≠ pyMaxTextLen g)).map (fun d => (pyMaxTextLen g, d)) ∧
      (∀ d ∈ g, d ≠ pyMaxTextLen g →
        (pyMaxTextLen g, d) ∈ (resolveDuplicateGroup "keep_longest" g).2) ∧
      (∀ p ∈ (resolveDuplicateGroup "keep_longest" g).2,
        p.1 = pyMaxTextLen g ∧ p.2 ∈ g ∧ p.2 ≠ pyMaxTextLen g) ∧
      (resolveDuplicateGroup "keep_longest" g).2.length =
        g.length - g.countP (fun d => decide (d = pyMaxTextLen g))) ∧
    ((resolveDuplicateGroup "keep_most_complete" g).2 =
        (g.filter (fun d => d ≠ mcBest g)).map (fun d => (mcBest g, d)) ∧
      (∀ d ∈ g, d ≠ mcBest g →
        (mcBest g, d) ∈ (resolveDuplicateGroup "keep_most_complete" g).2) ∧
      (∀ p ∈ (resolveDuplicateGroup "keep_most_complete" g).2,
        p.1 = mcBest g ∧ p.2 ∈ g ∧ p.2 ≠ mcBest g) ∧
      (resolveDuplicateGroup "keep_most_complete" g).2.length =
        g.length - g.countP (fun d => decide (d = mcBest g))) := by
  have h1 : ¬ g.length ≤ 1 := by omega
  refine ⟨?_, ?_, ?_⟩
  · cases g with
    | nil => simp at h
    | cons g0 rest =>
      have hkf : resolveDuplicateGroup "keep_first" (g0 :: rest) =
          ([g0], rest.map (fun d => (g0, d))) := by
        unfold resolveDuplicateGroup
        rw [if_neg h1, if_pos rfl]
      refine ⟨g0, rest, rfl, by rw [hkf], by rw [hkf], ?_⟩
      rw [hkf]
      simp
  · have hkl : resolveDuplicateGroup "keep_longest" g =
        ([pyMaxTextLen g],
          (g.filter (fun d => d ≠ pyMaxTextLen g)).map (fun d => (pyMaxTextLen g, d))) := by
      unfold resolveDuplicateGroup
      rw [if_neg h1, if_neg (by decide), if_pos rfl]
    refine ⟨by rw [hkl], ?_, ?_, ?_⟩
    · intro d hd hne
      rw [hkl]
      exact List.mem_map.2 ⟨d, List.mem_filter.2 ⟨hd, by simpa using hne⟩, rfl⟩
    · intro p hp
      rw [hkl] at hp
      obtain ⟨d, hd, hpd⟩ := List.mem_map.1 hp
      subst hpd
      have hdf := List.mem_filter.1 hd
      exact ⟨rfl, hdf.1, by simpa using hdf.2⟩
    · rw [hkl]
      simp only [ne_eq, decide_not, List.length_map]
      exact length_filter_not_eq g _
  · have hkm : resolveDuplicateGroup "keep_most_complete" g =
        ([mcBest g],
          (g.filter (fun d => d ≠ mcBest g)).map (fun d => (mcBest g, d))) := by
      unfold resolveDuplicateGroup
      rw [if_neg h1, if_neg (by decide), if_neg (by decide), if_pos rfl]
    refine ⟨by rw [hkm], ?_, ?_, ?_⟩
    · intro d hd hne
      rw [hkm]
      exact List.mem_map.2 ⟨d, List.mem_filter.2 ⟨hd, by simpa using hne⟩, rfl⟩
    · intro p hp
      rw [hkm] at hp
      obtain ⟨d, hd, hpd⟩ := List.mem_map.1 hp
      subst hpd
      have hdf := List.mem_filter.1 hd
      exact ⟨rfl, hdf.1, by simpa using hdf.2⟩
    · rw [hkm]
      simp only [ne_eq, decide_not, List.length_map]
      exact length_filter_not_eq g _

/-- Witness for the amended C2 statement at a concrete two-element group. -/
theorem c2_ledger_counts_witness :
    (∃ g0 rest, [cY1, cY2] = g0 :: rest ∧
      (resolveDuplicateGroup "keep_first" [cY1, cY2]).1 = [g0] ∧
      (resolveDuplicateGroup "keep_first" [cY1, cY2]).2 = rest.map (fun d => (g0, d)) ∧
      (resolveDuplicateGroup "keep_first" [cY1, cY2]).2.length = [cY1, cY2].length - 1) ∧
    ((resolveDuplicateGroup "keep_longest" [cY1, cY2]).2 =
        ([cY1, cY2].filter (fun d => d ≠ pyMaxTextLen [cY1, cY2])).map
          (fun d => (pyMaxTextLen [cY1, cY2], d)) ∧
      (∀ d ∈ [cY1, cY2], d ≠ pyMaxTextLen [cY1, cY2] →
        (pyMaxTextLen [cY1, cY2], d) ∈ (resolveDuplicateGroup "keep_longest" [cY1, cY2]).2) ∧
      (∀ p ∈ (resolveDuplicateGroup "keep_longest" [cY1, cY2]).2,
        p.1 = pyMaxTextLen [cY1, cY2] ∧ p.2 ∈ [cY1, cY2] ∧ p.2 ≠ pyMaxTextLen [cY1, cY2]) ∧
      (resolveDuplicateGroup "keep_longest" [cY1, cY2]).2.length =
        [cY1, cY2].length -
          [cY1, cY2].countP (fun d => decide (d = pyMaxTextLen [cY1, cY2]))) ∧
    ((resolveDuplicateGroup "keep_most_complete" [cY1, cY2]).2 =
        ([cY1, cY2].filter (fun d => d ≠ mcBest [cY1, cY2])).map
          (fun d => (mcBest [cY1, cY2], d)) ∧
      (∀ d ∈ [cY1, cY2], d ≠ mcBest [cY1, cY2] →
        (mcBest [cY1, cY2], d) ∈
          (resolveDuplicateGroup "keep_most_complete" [cY1, cY2]).2) ∧
      (∀ p ∈ (resolveDuplicateGroup "keep_most_complete" [cY1, cY2]).2,
        p.1 = mcBest [cY1, cY2] ∧ p.2 ∈ [cY1, cY2] ∧ p.2 ≠ mcBest [cY1, cY2]) ∧
      (resolveDuplicateGroup "keep_most_complete" [cY1, cY2]).2.length =
        [cY1, cY2].length -
          [cY1, cY2].countP (fun d => decide (d = mcBest [cY1, cY2]))) :=
  c2_ledger_counts [cY1, cY2] (by decide)

/-- C3 counterexample: `similarity_score` is not symmetric.  The two
citations normalize to `abcdxe` and `cdyeab`; `SequenceMatcher` finds total
match size 2 in one direction and 3 in the other (its greedy
first-longest-block decomposition is direction-dependent), so the scores
are 1/3 and 1/2. -/
theorem c3_counterexample :
    ¬ (similarityScore cSymA cSymB = similarityScore cSymB cSymA) := by
  rw [score_cSymA_cSymB, score_cSymB_cSymA]
  norm_num

/-- C3 amended: the DOI rule, the title rule and the year-boost condition
of `similarity_score` are all symmetric, so the score is symmetric for
every pair whose `SequenceMatcher` ratio is direction-independent (in
particular whenever the normalized texts are equal); full symmetry fails
only through the ratio step, as the counterexample shows. -/
theorem c3_symm_of_ratio_symm (a b : Citation)
    (h : ratioQ a.normalized_text b.normalized_text =
      ratioQ b.normalized_text a.normalized_text) :
    similarityScore a b = similarityScore b a := by
  unfold similarityScore
  by_cases h1 : strTruthy a.doi ∧ strTruthy b.doi ∧ a.doi = b.doi
  · rw [if_pos h1, if_pos ⟨h1.2.1, h1.1, h1.2.2.symm⟩]
  · have h1r : ¬ (strTruthy b.doi ∧ strTruthy a.doi ∧ b.doi = a.doi) :=
      fun hh => h1 ⟨hh.2.1, hh.1, hh.2.2.symm⟩
    rw [if_neg h1, if_neg h1r]
    by_cases h2 : strTruthy a.title ∧ strTruthy b.title ∧ a.year = b.year ∧
        normalizeString (a.title.getD []) = normalizeString (b.title.getD [])
    · rw [if_pos h2, if_pos ⟨h2.2.1, h2.1, h2.2.2.1.symm, h2.2.2.2.symm⟩]
    · have h2r : ¬ (strTruthy b.title ∧ strTruthy a.title ∧ b.year = a.year ∧
          normalizeString (b.title.getD []) = normalizeString (a.title.getD [])) :=
        fun hh => h2 ⟨hh.2.1, hh.1, hh.2.2.1.symm, hh.2.2.2.symm⟩
      rw [if_neg h2, if_neg h2r]
      by_cases h3 : yearTruthy a.year ∧ yearTruthy b.year ∧ a.year = b.year
      · rw [if_pos h3, if_pos ⟨h3.2.1, h3.1, h3.2.2.symm⟩, h]
      · have h3r : ¬ (yearTruthy b.year ∧ yearTruthy a.year ∧ b.year = a.year) :=
          fun hh => h3 ⟨hh.2.1, hh.1, hh.2.2.symm⟩
        rw [if_neg h3, if_neg h3r, h]

/-- Witness for the amended C3 statement: two distinct citations with equal
normalized texts, where the ratio hypothesis holds definitionally. -/
theorem c3_symm_witness :
    similarityScore cDoi5 cPlainLong = similarityScore cPlainLong cDoi5 :=
  c3_symm_of_ratio_symm cDoi5 cPlainLong (by
    have hnA : cDoi5.normalized_text = "alpha beta".data := by decide
    have hnB : cPlainLong.normalized_text = "alpha beta".data := by decide
    rw [hnA, hnB])

/-- C4: two citations whose extracted DOI is present (nonempty, as every
extracted DOI is) and equal have equal fingerprints, both land in the same
fingerprint group of the grouping stage, that group has at least two
elements, and resolving it under any of the three configured strategies
yields exactly one survivor.  The two `genFingerprint` hypotheses say the
stored fingerprint is the one derived from the citation's own fields, which
holds by construction for every citation built by the extractor. -/
theorem c4_same_doi_collapse (cs : List Citation) (a b : Citation) (d : List Char)
    (ha : a ∈ cs) (hb : b ∈ cs) (hab : a ≠ b)
    (hda : a.doi = some d) (hdb : b.doi = some d) (hd : d ≠ [])
    (hfa : a.fingerprint = genFingerprint a.doi a.normalized_text a.year)
    (hfb : b.fingerprint = genFingerprint b.doi b.normalized_text b.year) :
    a.fingerprint = b.fingerprint ∧
    a ∈ fpGroup a.fingerprint (groupByFingerprint cs) ∧
    b ∈ fpGroup a.fingerprint (groupByFingerprint cs) ∧
    2 ≤ (fpGroup a.fingerprint (groupByFingerprint cs)).length ∧
    ∀ s, (s = "keep_first" ∨ s = "keep_longest" ∨ s = "keep_most_complete") →
      ((resolveDuplicateGroup s (fpGroup a.fingerprint (groupByFingerprint cs))).1).length
        = 1 := by
  have hsd : strTruthy (some d) = true := by
    cases d with
    | nil => exact absurd rfl hd
    | cons x xs => rfl
  have hf : a.fingerprint = b.fingerprint := by
    rw [hfa, hfb, hda, hdb]
    simp [genFingerprint, hsd]
  have hgroup := fpGroup_groupByFingerprint a.fingerprint cs
  have hamem : a ∈ fpGroup a.fingerprint (groupByFingerprint cs) := by
    rw [hgroup]
    exact List.mem_filter.2 ⟨ha, by simp⟩
  have hbmem : b ∈ fpGroup a.fingerprint (groupByFingerprint cs) := by
    rw [hgroup]
    refine List.mem_filter.2 ⟨hb, ?_⟩
    simp [hf]
  have hlen := two_le_length_of_mem_ne _ a b hamem hbmem hab
  exact ⟨hf, hamem, hbmem, hlen, fun s hs => resolve_known_length_one s hs _ hlen⟩

/-- Witness for C4 at a concrete pair sharing the DOI `10.1/abc`. -/
theorem c4_same_doi_collapse_witness :
    cDoiX.fingerprint = cDoiY.fingerprint ∧
    cDoiX ∈ fpGroup cDoiX.fingerprint (groupByFingerprint [cDoiX, cDoiY]) ∧
    cDoiY ∈ fpGroup cDoiX.fingerprint (groupByFingerprint [cDoiX, cDoiY]) ∧
    2 ≤ (fpGroup cDoiX.fingerprint (groupByFingerprint [cDoiX, cDoiY])).length ∧
    ∀ s, (s = "keep_first" ∨ s = "keep_longest" ∨ s = "keep_most_complete") →
      ((resolveDuplicateGroup s
          (fpGroup cDoiX.fingerprint (groupByFingerprint [cDoiX, cDoiY]))).1).length = 1 :=
  c4_same_doi_collapse [cDoiX, cDoiY] cDoiX cDoiY "10.1/abc".data
    (by decide) (by decide) (by decide) (by decide) (by decide) (by decide) rfl rfl

/-- C5: under `keep_most_complete`, (i) the survivor of a fingerprint group
of size at least two is a group member that carries a DOI and is longest
among the DOI-bearing members whenever any member has a DOI, and is longest
overall otherwise; (ii) in the near-duplicate pass the keep/replace
decision always favours the DOI-bearing side of a mixed pair; and (iii) on
a concrete mixed pair with equal normalized texts, the DOI-bearing citation
is the sole survivor of `_remove_similar_duplicates` in either input order,
even though the DOI-less text is strictly longer. -/
theorem c5_keep_most_complete :
    (∀ g : List Citation, 2 ≤ g.length →
      (resolveDuplicateGroup "keep_most_complete" g).1 = [mcBest g] ∧ mcBest g ∈ g ∧
      ((∃ c ∈ g, strTruthy (Citation.doi c)) →
        strTruthy (Citation.doi (mcBest g)) ∧
        ∀ c ∈ g, strTruthy (Citation.doi c) →
          c.text.length ≤ (mcBest g).text.length) ∧
      ((∀ c ∈ g, ¬ strTruthy (Citation.doi c)) →
        ∀ c ∈ g, c.text.length ≤ (mcBest g).text.length)) ∧
    (∀ e n : Citation,
      (strTruthy n.doi ∧ ¬ strTruthy e.doi →
        shouldReplace "keep_most_complete" e n = true) ∧
      (strTruthy e.doi ∧ ¬ strTruthy n.doi →
        shouldReplace "keep_most_complete" e n = false)) ∧
    (removeSimilarDuplicates cfgMC [cDoi5, cPlainLong] []).1 = [cDoi5] ∧
    (removeSimilarDuplicates cfgMC [cPlainLong, cDoi5] []).1 = [cDoi5] ∧
    cDoi5.text.length < cPlainLong.text.length ∧
    strTruthy cDoi5.doi = true ∧ strTruthy cPlainLong.doi = false ∧
    cDoi5.normalized_text = cPlainLong.normalized_text := by
  refine ⟨?_, ?_, c5run1, c5run2, by decide, by decide, by decide, by decide⟩
  · intro g hg
    have h1 : ¬ g.length ≤ 1 := by omega
    have hgne : g ≠ [] := by
      intro he
      subst he
      simp at hg
    have hres : (resolveDuplicateGroup "keep_most_complete" g).1 = [mcBest g] := by
      unfold resolveDuplicateGroup
      rw [if_neg h1, if_neg (by decide), if_neg (by decide), if_pos rfl]
    refine ⟨hres, ?_, ?_, ?_⟩
    · unfold mcBest
      by_cases h5 : (g.filter (fun c => strTruthy c.doi)).length ≠ 0
      · rw [if_pos h5]
        have hne : g.filter (fun c => strTruthy c.doi) ≠ [] := by
          intro hh
          exact h5 (by rw [hh]; rfl)
        exact List.mem_of_mem_filter (pyMaxTextLen_mem _ hne)
      · rw [if_neg h5]
        exact pyMaxTextLen_mem g hgne
    · rintro ⟨c, hc, hcd⟩
      have hcf : c ∈ g.filter (fun c => strTruthy c.doi) := List.mem_filter.2 ⟨hc, hcd⟩
      have hne : g.filter (fun c => strTruthy c.doi) ≠ [] := by
        intro hh
        rw [hh] at hcf
        simp at hcf
      have h5 : (g.filter (fun c => strTruthy c.doi)).length ≠ 0 := by
        intro hh
        exact hne (List.length_eq_zero.1 hh)
      have hbd : mcBest g = pyMaxTextLen (g.filter (fun c => strTruthy c.doi)) := by
        unfold mcBest
        rw [if_pos h5]
      constructor
      · rw [hbd]
        have := pyMaxTextLen_mem _ hne
        exact (List.mem_filter.1 this).2
      · intro x hx hxd
        rw [hbd]
        exact pyMaxTextLen_le _ x (List.mem_filter.2 ⟨hx, hxd⟩)
    · intro hall x hx
      have h5 : ¬ (g.filter (fun c => strTruthy c.doi)).length ≠ 0 := by
        intro hh
        have hne : g.filter (fun c => strTruthy c.doi) ≠ [] := by
          intro he
          exact hh (by rw [he]; rfl)
        cases hfe : g.filter (fun c => strTruthy c.doi) with
        | nil => exact hne hfe
        | cons y ys =>
          have hy : y ∈ g.filter (fun c => strTruthy c.doi) := by
            rw [hfe]
            exact List.mem_cons_self _ _
          have := List.mem_filter.1 hy
          exact hall y this.1 this.2
      have hbd : mcBest g = pyMaxTextLen g := by
        unfold mcBest
        rw [if_neg h5]
      rw [hbd]
      exact pyMaxTextLen_le g x hx
  · intro e n
    constructor
    · rintro ⟨hn, he⟩
      have hef : strTruthy e.doi = false := Bool.eq_false_iff.2 he
      unfold shouldReplace
      rw [if_neg (by decide), if_neg (by decide), if_pos rfl]
      simp [hn, hef]
    · rintro ⟨he, hn⟩
      have hnf : strTruthy n.doi = false := Bool.eq_false_iff.2 hn
      unfold shouldReplace
      rw [if_neg (by decide), if_neg (by decide), if_pos rfl]
      simp [he, hnf]

/-- C6: a pair is classified as a duplicate exactly when its similarity
score is at least the threshold, and a score exactly equal to the threshold
is classified as a duplicate (the bound is inclusive, `>=` in the source). -/
theorem c6_threshold_inclusive (a b : Citation) (t : ℚ) (h0 : 0 ≤ t) (h1 : t ≤ 1) :
    (isDuplicateOf a b t = true ↔ t ≤ similarityScore a b) ∧
    (similarityScore a b = t → isDuplicateOf a b t = true) := by
  constructor
  · simp [isDuplicateOf]
  · intro h
    simp [isDuplicateOf, h]

/-- Witness for C6 at the default threshold 0.85. -/
theorem c6_threshold_inclusive_witness :
    (0 ≤ (17 : ℚ) / 20 ∧ (17 : ℚ) / 20 ≤ 1) ∧
    (isDuplicateOf cSymA cSymB (17 / 20) = true ↔
      (17 : ℚ) / 20 ≤ similarityScore cSymA cSymB) ∧
    (similarityScore cSymA cSymB = 17 / 20 → isDuplicateOf cSymA cSymB (17 / 20) = true) :=
  ⟨⟨by norm_num, by norm_num⟩,
    c6_threshold_inclusive cSymA cSymB (17 / 20) (by norm_num) (by norm_num)⟩

/-- C7: the normalized text and the fingerprint of an extracted citation
are functions of the text and the supplied year alone — two constructions
from the same `(text, year)` agree on both derived fields regardless of
author and category (and of anything else: the embedding is a pure
function, which is the determinism across runs). -/
theorem c7_deterministic_derivation (t : List Char) (y : Option Int)
    (a1 a2 k1 k2 : String) :
    (mkCitation t a1 y k1).normalized_text = (mkCitation t a2 y k2).normalized_text ∧
    (mkCitation t a1 y k1).fingerprint = (mkCitation t a2 y k2).fingerprint :=
  ⟨rfl, rfl⟩

/-- Witness for C5: the group part at a concrete two-element group and the
decision part at a concrete mixed pair. -/
theorem c5_keep_most_complete_witness :
    ((resolveDuplicateGroup "keep_most_complete" [cDoi5, cPlainLong]).1 =
        [mcBest [cDoi5, cPlainLong]] ∧
      mcBest [cDoi5, cPlainLong] ∈ [cDoi5, cPlainLong] ∧
      ((∃ c ∈ [cDoi5, cPlainLong], strTruthy (Citation.doi c)) →
        strTruthy (Citation.doi (mcBest [cDoi5, cPlainLong])) ∧
        ∀ c ∈ [cDoi5, cPlainLong], strTruthy (Citation.doi c) →
          c.text.length ≤ (mcBest [cDoi5, cPlainLong]).text.length) ∧
      ((∀ c ∈ [cDoi5, cPlainLong], ¬ strTruthy (Citation.doi c)) →
        ∀ c ∈ [cDoi5, cPlainLong],
          c.text.length ≤ (mcBest [cDoi5, cPlainLong]).text.length)) ∧
    shouldReplace "keep_most_complete" cPlainLong cDoi5 = true :=
  ⟨c5_keep_most_complete.1 [cDoi5, cPlainLong] (by decide),
    (c5_keep_most_complete.2.1 cPlainLong cDoi5).1 ⟨by decide, by decide⟩⟩

/-- C8 counterexample: with duplicate detection enabled and
`similarity_threshold = 1.0`, the near-duplicate pass does not run at all
(`_remove_duplicates` guards it with `threshold < 1.0`): two citations that
score 1.0 against each other but carry different fingerprints both survive,
so the output does not hold one representative per detected cluster. -/
theorem c8_counterexample :
    cfgT1.enable_duplicate_detection = true ∧
    isDuplicateOf cY2 cY1 cfgT1.similarity_threshold = true ∧
    cY1.fingerprint ≠ cY2.fingerprint ∧
    (removeDuplicates cfgT1 [cY1, cY2]).1 = [cY1, cY2] := by
  refine ⟨rfl, isDup_cY2_cY1_one, by decide, ?_⟩
  simp only [removeDuplicates]
  have hth : cfgT1.similarity_threshold = 1 := rfl
  rw [hth, if_neg (by norm_num : ¬ ((1 : ℚ) < 1))]
  have hE : exactDedup cfgT1 [cY1, cY2] = ([cY1, cY2], []) := by decide
  rw [hE]

/-- C8 amended: when duplicate detection is enabled and the similarity
threshold is below 1.0, the near-duplicate pass runs exactly once, over the
flattened survivor list of the exact-fingerprint stage, threading that
stage's ledger; when the threshold is 1.0 or more it is skipped entirely
and the exact-stage result is returned.  In either case every output
citation is one of the input citations. -/
theorem c8_pass_structure (cfg : AnalysisConfig) (cs : List Citation) :
    (cfg.similarity_threshold < 1 →
      removeDuplicates cfg cs =
        removeSimilarDuplicates cfg (exactDedup cfg cs).1 (exactDedup cfg cs).2) ∧
    (¬ cfg.similarity_threshold < 1 → removeDuplicates cfg cs = exactDedup cfg cs) ∧
    (∀ x ∈ (removeDuplicates cfg cs).1, x ∈ cs) := by
  refine ⟨fun h => ?_, fun h => ?_, ?_⟩
  · simp only [removeDuplicates]
    rw [if_pos h]
  · simp only [removeDuplicates]
    rw [if_neg h]
  · intro x hx
    simp only [removeDuplicates] at hx
    by_cases h : cfg.similarity_threshold < 1
    · rw [if_pos h] at hx
      rcases simFold_mem_sub cfg (exactDedup cfg cs).1 [] (exactDedup cfg cs).2 x hx with
        h2 | h2
      · simp at h2
      · exact exactDedup_mem_sub cfg cs x h2
    · rw [if_neg h] at hx
      exact exactDedup_mem_sub cfg cs x hx

/-- Witness for the amended C8 statement with the default configuration
(threshold 0.85 < 1). -/
theorem c8_pass_structure_witness :
    removeDuplicates cfgKF [cDup] =
      removeSimilarDuplicates cfgKF (exactDedup cfgKF [cDup]).1 (exactDedup cfgKF [cDup]).2 :=
  (c8_pass_structure cfgKF [cDup]).1 (by norm_num [show cfgKF.similarity_threshold = 17 / 20 from rfl])

theorem addToYears_inv (P : Citation → Prop) (y : Int) (c : Citation)
    (hc : P c) (hcy : c.year = some y) :
    ∀ (ys : List (Int × List Citation)),
      (∀ ye ∈ ys, ∀ x ∈ ye.2, P x ∧ x.year = some ye.1) →
      ∀ ye ∈ addToYears y c ys, ∀ x ∈ ye.2, P x ∧ x.year = some ye.1
  | [], hys, ye, hye, x, hx => by
    simp only [addToYears, List.mem_singleton] at hye
    subst hye
    simp only [List.mem_singleton] at hx
    subst hx
    exact ⟨hc, hcy⟩
  | (k, l) :: rest, hys, ye, hye, x, hx => by
    by_cases hk : k = y
    · simp only [addToYears, if_pos hk] at hye
      rcases List.mem_cons.1 hye with h | h
      · subst h
        rcases List.mem_append.1 hx with h2 | h2
        · exact hys (k, l) (List.mem_cons_self _ _) x h2
        · simp only [List.mem_singleton] at h2
          subst h2
          exact ⟨hc, by rw [hcy, hk]⟩
      · exact hys ye (List.mem_cons_of_mem _ h) x hx
    · simp only [addToYears, if_neg hk] at hye
      rcases List.mem_cons.1 hye with h | h
      · subst h
        exact hys (k, l) (List.mem_cons_self _ _) x hx
      · exact addToYears_inv P y c hc hcy rest
          (fun e he => hys e (List.mem_cons_of_mem _ he)) ye h x hx

theorem addToOrganized_inv (c : Citation) (y : Int) (hcy : c.year = some y) :
    ∀ (m : List (String × List (Int × List Citation))),
      (∀ e ∈ m, ∀ ye ∈ e.2, ∀ x ∈ ye.2, x.category = e.1 ∧ x.year = some ye.1) →
      ∀ e ∈ addToOrganized c y m, ∀ ye ∈ e.2, ∀ x ∈ ye.2,
        x.category = e.1 ∧ x.year = some ye.1
  | [], _, e, he, ye, hye, x, hx => by
    simp only [addToOrganized, List.mem_singleton] at he
    subst he
    exact addToYears_inv (fun x => x.category = c.category) y c rfl hcy []
      (by simp) ye hye x hx
  | (cat, ys) :: rest, hm, e, he, ye, hye, x, hx => by
    by_cases hk : cat = c.category
    · simp only [addToOrganized, if_pos hk] at he
      rcases List.mem_cons.1 he with h | h
      · subst h
        exact addToYears_inv (fun x => x.category = cat) y c hk.symm hcy ys
          (fun ye2 hye2 x2 hx2 => hm (cat, ys) (List.mem_cons_self _ _) ye2 hye2 x2 hx2)
          ye hye x hx
      · exact hm e (List.mem_cons_of_mem _ h) ye hye x hx
    · simp only [addToOrganized, if_neg hk] at he
      rcases List.mem_cons.1 he with h | h
      · subst h
        exact hm (cat, ys) (List.mem_cons_self _ _) ye hye x hx
      · exact addToOrganized_inv c y hcy rest
          (fun e2 he2 => hm e2 (List.mem_cons_of_mem _ he2)) e h ye hye x hx

theorem orgFold_inv :
    ∀ (cs : List Citation) (m : List (String × List (Int × List Citation))),
      (∀ e ∈ m, ∀ ye ∈ e.2, ∀ x ∈ ye.2, x.category = e.1 ∧ x.year = some ye.1) →
      ∀ e ∈ cs.foldl
          (fun m c => if yearTruthy c.year then addToOrganized c (c.year.getD 0) m else m) m,
        ∀ ye ∈ e.2, ∀ x ∈ ye.2, x.category = e.1 ∧ x.year = some ye.1
  | [], _, hm => hm
  | c :: cs, m, hm => by
    simp only [List.foldl_cons]
    by_cases hy : yearTruthy c.year
    · rw [if_pos hy]
      have hcy : c.year = some (c.year.getD 0) := by
        cases hc : c.year with
        | none =>
          rw [hc] at hy
          exact absurd hy (by simp [yearTruthy])
        | some yv => rfl
      exact orgFold_inv cs _ (addToOrganized_inv c (c.year.getD 0) hcy m hm)
    · rw [if_neg hy]
      exact orgFold_inv cs m hm

/-- C9: the organizer groups the deduplicated set by category then year:
every stored citation sits under its own category and year keys, citations
without a year appear nowhere in the structure, the year entries of every
category are in descending key order, and the concrete input with years
[2019, 2022, 2020] in one category yields the key order [2022, 2020, 2019]. -/
theorem c9_organize :
    (∀ cs : List Citation, ∀ e ∈ organizeCitations cs,
      List.Pairwise (fun x yv : Int × List Citation => yv.1 ≤ x.1) e.2 ∧
      ∀ ye ∈ e.2, ∀ x ∈ ye.2, x.category = e.1 ∧ x.year = some ye.1) ∧
    (∀ cs : List Citation, ∀ c : Citation, c.year = none →
      ∀ e ∈ organizeCitations cs, ∀ ye ∈ e.2, c ∉ ye.2) ∧
    (organizeCitations [cOrg19, cOrg22, cOrg20]).map (fun e => e.2.map Prod.fst) =
      [[2022, 2020, 2019]] := by
  have hmain : ∀ cs : List Citation, ∀ e ∈ organizeCitations cs,
      List.Pairwise (fun x yv : Int × List Citation => yv.1 ≤ x.1) e.2 ∧
      ∀ ye ∈ e.2, ∀ x ∈ ye.2, x.category = e.1 ∧ x.year = some ye.1 := by
    intro cs e he
    simp only [organizeCitations, List.mem_map] at he
    obtain ⟨e0, he0, heq⟩ := he
    subst heq
    constructor
    · haveI ht : IsTotal (Int × List Citation) (fun x yv => yv.1 ≤ x.1) :=
        ⟨fun a b => le_total b.1 a.1⟩
      haveI htr : IsTrans (Int × List Citation) (fun x yv => yv.1 ≤ x.1) :=
        ⟨fun a b c hab hbc => le_trans hbc hab⟩
      simpa [List.Sorted] using
        List.sorted_insertionSort (fun x yv : Int × List Citation => yv.1 ≤ x.1) e0.2
    · intro ye hye x hx
      have hye2 : ye ∈ e0.2 := by
        simpa using (List.mem_insertionSort _).1 hye
      exact orgFold_inv cs [] (by simp) e0 he0 ye hye2 x hx
  refine ⟨hmain, ?_, ?_⟩
  · intro cs c hc e he ye hye hmem
    have hfact := (hmain cs e he).2 ye hye c hmem
    rw [hc] at hfact
    exact Option.noConfusion hfact.2
  · decide

/-- C10: under `keep_first` the near-duplicate pass never replaces an
accepted citation, so its output is a subsequence of its input: every
output element is an input element and relative input order is preserved. -/
theorem c10_keep_first_subsequence (cfg : AnalysisConfig)
    (h : cfg.duplicate_strategy = "keep_first") (cs : List Citation)
    (ledger : List (Citation × Citation)) :
    ((removeSimilarDuplicates cfg cs ledger).1).Sublist cs := by
  have hs := simFold_keepFirst_sublist cfg h cs [] ledger [] (List.nil_sublist [])
  simpa [removeSimilarDuplicates] using hs

/-- Witness for C10 with the default configuration on a one-element list. -/
theorem c10_keep_first_subsequence_witness :
    ((removeSimilarDuplicates cfgKF [cDup] []).1).Sublist [cDup] :=
  c10_keep_first_subsequence cfgKF rfl [cDup] []

/-- Witness for C9: a citation with no extracted year is absent from a
concrete organized year entry. -/
theorem c9_organize_witness : cSymA ∉ [cOrg22] :=
  c9_organize.2.1 [cOrg19, cOrg22, cOrg20] cSymA (by decide)
    ("cat", [(2022, [cOrg22]), (2020, [cOrg20]), (2019, [cOrg19])]) (by decide)
    (2022, [cOrg22]) (by decide)
